import Mathlib

/-!
# Verification of the blaze-core datashape parser and instruction generator

Shallow embedding of `src/blaze/datashape/parser.py` (tokenizer, grammar,
type builder `build_ds`) and `src/blaze/plan.py` (`InstructionGen`), with
theorems settling the frozen claims about the natural-language specification.
-/

namespace Blaze

/-! ## The structural type model (`coretypes`)

The module `blaze/datashape/coretypes.py` is an external collaborator of the
parser; its constructors are applied but not defined in the sources at hand.
-/

/-- Modelled from the spec: the immutable structural `Type` value model
(§3 of the spec; `coretypes.py` is not part of the sources).  The applied
reserved constructors (`Record`, `Range`, `Either`, `Varchar`, `Union`,
`Option`, `string`) keep their positional argument list, mirroring the
Python `reserved[ds.head](*ds.args)` call. -/
inductive Ty where
  /-- `T.Fixed(n)`: non-negative integer dimension. -/
  | Fixed (n : Nat)
  /-- `T.TypeVar(name)`: free type variable. -/
  | TypeVar (name : String)
  /-- `T.Type._registry[name]`: a primitive kind looked up by name. -/
  | Bit (name : String)
  /-- `T.IntegerConstant(n)`: integer constant appearing as a constructor argument. -/
  | IntegerConstant (n : Nat)
  /-- `T.StringConstant(s)`: string constant appearing as a constructor argument. -/
  | StringConstant (s : String)
  /-- `T.Record(fields)`: ordered field list from a record literal. -/
  | Record (fields : List (String × Ty))
  /-- `T.DataShape(components)`: ordered component sequence. -/
  | DataShape (components : List Ty)
  /-- `T.Record(*args)` used as a reserved applied constructor. -/
  | RecordCon (args : List Ty)
  /-- `T.Range(*args)`. -/
  | RangeCon (args : List Ty)
  /-- `T.Either(*args)`. -/
  | EitherCon (args : List Ty)
  /-- `T.Varchar(*args)`. -/
  | VarcharCon (args : List Ty)
  /-- `T.Union(*args)`. -/
  | UnionCon (args : List Ty)
  /-- `T.Option(*args)`. -/
  | OptionCon (args : List Ty)
  /-- `T.String(*args)` (the `string` reserved constructor). -/
  | StringCon (args : List Ty)

/-- The fixed set of primitive-kind names recognized by the lexer
(`bits` in `parser.py`; an identifier in this set is reclassified
from NAME to BIT). -/
def bits : List String :=
  [ "bool", "blob", "int", "float",
    "int8", "int16", "int32", "int64", "int64",
    "uint8", "uint16", "uint32", "uint64",
    "float16", "float32", "float64", "float128",
    "complex64", "complex128", "complex256",
    "string", "object", "datetime64", "timedelta64" ]

/-- Modelled from the spec: `T.Type._registry[name]`, the process-wide
read-only primitive-kind table (`coretypes.py` is not in the sources).
Lookup succeeds exactly on the primitive-kind names and yields the
primitive kind; an absent key is a Python `KeyError`. -/
def typeRegistry (name : String) : Option Ty :=
  if name ∈ bits then some (Ty.Bit name) else none

/-! ## Errors

One error type for the whole pipeline, mirroring the Python exception
classes raised in `parser.py` and `plan.py`. -/

/-- The failure modes of the parser and the type builder, one constructor
per Python exception raised by the sources. -/
inductive Err where
  /-- `t_error`: `Exception("Unknown token %s" % repr(t.value[0]))` — carries the offending character. -/
  | lexError (c : Char)
  /-- `p_error` on a token: `DatashapeSyntaxError(p.lexpos, "<stdin>", p.lexer.lexdata)` — byte offset plus original source text. -/
  | syntaxError (pos : Nat) (src : String)
  /-- `p_error` at end of input (no token): the parser yields no tree. Internal to the parse driver. -/
  | syntaxEOF
  /-- `NotImplementedError(msg)`. -/
  | notImplementedError (msg : String)
  /-- `TypeError`: building a parametrized declaration (the spec's `ParametrizedTypeUnsupported`). -/
  | typeError (msg : String)
  /-- `NameError` from an unknown application head (the spec's `UnknownConstructor`); carries the head name. -/
  | nameError (head : String)
  /-- `ValueError(msg)`: invalid construction handed to `build_ds`. -/
  | valueError (msg : String)
  /-- Python `KeyError` (missing table key). -/
  | keyError
  /-- Python `IndexError` (indexing an empty sequence). -/
  | indexError
  /-- Python `AttributeError` (attribute access on an object lacking it). -/
  | attributeError
  /-- Failed `assert` statement. -/
  | assertionError
  /-- Modelling artifact: recursion bound of the descent parser ran out.
  Unreachable when the parser is run with fuel at least the token count. -/
  | fuelError
  deriving DecidableEq, Repr

/-! ## Parse-tree nodes

The namedtuples produced by the grammar actions in `parser.py`. -/

/-- `simpletype(nargs, tycon, tyvars)`: a declaration's left-hand side. -/
structure simpletype where
  nargs : Nat
  tycon : String
  tyvars : List String
  deriving DecidableEq, Repr

/-- Parse-tree values handed to `build_ds`.  Applications carry already
built `Ty` arguments because the `appl_args` grammar actions resolve each
argument at parse time; record items carry the field's right-hand side as
the component tuple produced by `rhs_expression`. -/
inductive PNode where
  /-- The Python list `[p[1], p[2]]` produced by `mod : mod mod`. -/
  | pmod (l r : PNode)
  /-- `tydecl(lhs, rhs)`. -/
  | tydecl (lhs : simpletype) (rhs : List PNode)
  /-- `tyinst(conargs)`. -/
  | tyinst (conargs : List PNode)
  /-- `bittype(name)`. -/
  | bittype (name : String)
  /-- A bare Python `int` component (NUMBER). -/
  | pnum (n : Nat)
  /-- A bare Python `str` component (NAME). -/
  | pname (s : String)
  /-- `tyappl(head, args)` with arguments already built by the grammar. -/
  | tyappl (head : String) (args : List Ty)
  /-- `tyrecord(elts)`: field name paired with the field's component tuple. -/
  | tyrecord (elts : List (String × List PNode))

/-! ## The type builder `build_ds` -/

/-- The `reserved` table of `parser.py`: the application heads accepted by
`build_ds`, each mapped to its constructor. -/
def reserved : List (String × (List Ty → Ty)) :=
  [ ("Record",  Ty.RecordCon),
    ("Range",   Ty.RangeCon),
    ("Either",  Ty.EitherCon),
    ("Varchar", Ty.VarcharCon),
    ("Union",   Ty.UnionCon),
    ("Option",  Ty.OptionCon),
    ("string",  Ty.StringCon) ]

/-- `ds.head in reserved` / `reserved[ds.head]`. -/
def reservedLookup (head : String) : Option (List Ty → Ty) :=
  (reserved.find? (fun p => p.1 = head)).map (fun p => p.2)

mutual

/-- `build_ds` of `parser.py`: build a datashape instance from a parse tree. -/
def build_ds : PNode → Except Err Ty
  | .pmod _ _ =>
      .error (.notImplementedError "dshape from list parse tree")
  | .tydecl lhs rhs =>
      if lhs.tyvars.length = 0 then
        (buildList rhs).bind (fun dst =>
          match dst with
          | [d] => .ok d
          | _   => .ok (.DataShape dst))
      else
        .error (.typeError "building a simple dshape with type parameters is not supported")
  | .tyinst conargs =>
      (buildList conargs).bind (fun dst =>
        match dst with
        | [d] => .ok d
        | _   => .ok (.DataShape dst))
  | .bittype name =>
      match typeRegistry name with
      | some t => .ok t
      | none   => .error .keyError
  | .pnum n => .ok (.Fixed n)
  | .pname s => .ok (.TypeVar s)
  | .tyappl head args =>
      match reservedLookup head with
      | some con => .ok (con args)
      | none     => .error (.nameError head)
  | .tyrecord elts =>
      (buildFields elts).map Ty.Record

/-- `map(build_ds, ...)` over a component tuple, aborting at the first error. -/
def buildList : List PNode → Except Err (List Ty)
  | [] => .ok []
  | x :: xs =>
      (build_ds x).bind (fun t => (buildList xs).map (fun ts => t :: ts))

/-- The record comprehension `[(a, build_ds(b[0])) for a, b in ds.elts]`:
only the first component `b[0]` of each field's tuple is built. -/
def buildFields : List (String × List PNode) → Except Err (List (String × Ty))
  | [] => .ok []
  | (a, b) :: rest =>
      match b with
      | [] => .error .indexError
      | b0 :: _ =>
          (build_ds b0).bind (fun t =>
            (buildFields rest).map (fun fs => (a, t) :: fs))

end

/-- `build_ds` applied to the driver's parse result: PLY yields `None` when
the error handler fires at end of input, and `build_ds(None)` falls through
to the final `ValueError` branch. -/
def build_ds_top : Option PNode → Except Err Ty
  | some t => build_ds t
  | none   => .error (.valueError "Invalid construction from Datashape parser: None")

example : Blaze.build_ds (.tyinst [.pname "a"]) = .ok (.TypeVar "a") := rfl

example : Blaze.build_ds (.tyinst [.pname "a", .pnum 3]) =
    .ok (.DataShape [.TypeVar "a", .Fixed 3]) := rfl

end Blaze

namespace Blaze

/-! ## Claims about the type builder -/

/-- Helper: the `tydecl`/`tyinst` folding on an already built component list. -/
theorem build_ds_tydecl_fold (lhs : simpletype) (rhs : List PNode) (comps : List Ty)
    (h0 : lhs.tyvars = []) (h1 : buildList rhs = .ok comps) :
    build_ds (.tydecl lhs rhs) =
      .ok (match comps with | [d] => d | _ => .DataShape comps) := by
  simp only [build_ds, h0, List.length_nil, if_pos rfl, h1, Except.bind]
  match comps with
  | [] => rfl
  | [d] => rfl
  | a :: b :: rest => rfl

/-- Helper: the `tyinst` folding on an already built component list. -/
theorem build_ds_tyinst_fold (conargs : List PNode) (comps : List Ty)
    (h1 : buildList conargs = .ok comps) :
    build_ds (.tyinst conargs) =
      .ok (match comps with | [d] => d | _ => .DataShape comps) := by
  simp only [build_ds, h1, Except.bind]
  match comps with
  | [] => rfl
  | [d] => rfl
  | a :: b :: rest => rfl

/-- C3: for every well-formed unparametrized type declaration and every bare
instance, the type builder builds each RHS component and then applies the
folding rule exactly once: a single built component is returned as-is,
otherwise the result is `DataShape` of the ordered component list. -/
theorem tydecl_tyinst_single_multi_folding
    (lhs : simpletype) (rhs conargs : List PNode) (comps ics : List Ty)
    (h0 : lhs.tyvars = [])
    (h1 : buildList rhs = .ok comps) (h2 : buildList conargs = .ok ics) :
    (∀ d, comps = [d] → build_ds (.tydecl lhs rhs) = .ok d) ∧
    (comps.length ≠ 1 → build_ds (.tydecl lhs rhs) = .ok (.DataShape comps)) ∧
    (∀ d, ics = [d] → build_ds (.tyinst conargs) = .ok d) ∧
    (ics.length ≠ 1 → build_ds (.tyinst conargs) = .ok (.DataShape ics)) := by
  refine ⟨?_, ?_, ?_, ?_⟩
  · intro d hd
    subst hd
    exact build_ds_tydecl_fold lhs rhs [d] h0 h1
  · intro hlen
    rw [build_ds_tydecl_fold lhs rhs comps h0 h1]
    match comps, hlen with
    | [], _ => rfl
    | [d], h => exact absurd rfl h
    | a :: b :: rest, _ => rfl
  · intro d hd
    subst hd
    exact build_ds_tyinst_fold conargs [d] h2
  · intro hlen
    rw [build_ds_tyinst_fold conargs ics h2]
    match ics, hlen with
    | [], _ => rfl
    | [d], h => exact absurd rfl h
    | a :: b :: rest, _ => rfl

/-- Witness for C3 at concrete inputs: a one-component declaration collapses
to its component; a two-component bare instance wraps in `DataShape`. -/
theorem tydecl_tyinst_single_multi_folding_witness :
    build_ds (.tydecl ⟨0, "foo", []⟩ [.bittype "int32"]) = .ok (.Bit "int32") ∧
    build_ds (.tyinst [.pnum 2, .bittype "int32"]) =
      .ok (.DataShape [.Fixed 2, .Bit "int32"]) :=
  ⟨(tydecl_tyinst_single_multi_folding ⟨0, "foo", []⟩ [.bittype "int32"]
      [.pnum 2, .bittype "int32"] [.Bit "int32"] [.Fixed 2, .Bit "int32"]
      rfl rfl rfl).1 _ rfl,
   (tydecl_tyinst_single_multi_folding ⟨0, "foo", []⟩ [.bittype "int32"]
      [.pnum 2, .bittype "int32"] [.Bit "int32"] [.Fixed 2, .Bit "int32"]
      rfl rfl rfl).2.2.2 (by simp)⟩

/-- C4: a type declaration whose left-hand side has one or more type
parameters fails with the `TypeError` that realizes the spec's
`ParametrizedTypeUnsupported`; it is never lowered to a concrete `Type`. -/
theorem parametrized_tydecl_rejected (lhs : simpletype) (rhs : List PNode)
    (h : lhs.tyvars ≠ []) :
    build_ds (.tydecl lhs rhs) =
      .error (.typeError "building a simple dshape with type parameters is not supported") ∧
    ∀ t, build_ds (.tydecl lhs rhs) ≠ .ok t := by
  have hlen : lhs.tyvars.length ≠ 0 := by
    simpa using h
  constructor
  · simp only [build_ds, if_neg hlen]
  · intro t
    simp only [build_ds, if_neg hlen]
    intro hc
    exact Except.noConfusion hc

/-- Witness for C4: `type T x y = {a:x;b:y}` (as parsed) is rejected. -/
theorem parametrized_tydecl_rejected_witness :
    build_ds (.tydecl ⟨2, "T", ["x", "y"]⟩
        [.tyrecord [("a", [.pname "x"]), ("b", [.pname "y"])]]) =
      .error (.typeError "building a simple dshape with type parameters is not supported") :=
  (parametrized_tydecl_rejected ⟨2, "T", ["x", "y"]⟩
      [.tyrecord [("a", [.pname "x"]), ("b", [.pname "y"])]] (by simp)).1

/-- C5: an application whose head is one of exactly the seven reserved
constructor names resolves to that constructor applied positionally to the
already built arguments; any other head fails with the `NameError` that
realizes the spec's `UnknownConstructor`, carrying the head name — a
build-time failure distinct from a `SyntaxError`. -/
theorem reserved_head_application (head : String) (args : List Ty) :
    ((reservedLookup head).isSome ↔
        head ∈ ["Record", "Range", "Either", "Varchar", "Union", "Option", "string"]) ∧
    (∀ con, reservedLookup head = some con →
        build_ds (.tyappl head args) = .ok (con args)) ∧
    (reservedLookup head = none →
        build_ds (.tyappl head args) = .error (.nameError head) ∧
        ∀ pos src, (Err.nameError head) ≠ .syntaxError pos src) := by
  refine ⟨?_, ?_, ?_⟩
  · simp only [reservedLookup, reserved, List.find?, Option.isSome, List.mem_cons,
      List.not_mem_nil, or_false, decide_eq_true_eq]
    by_cases h1 : "Record" = head <;> simp [h1] <;>
    by_cases h2 : "Range" = head <;> simp [h2] <;>
    by_cases h3 : "Either" = head <;> simp [h3] <;>
    by_cases h4 : "Varchar" = head <;> simp [h4] <;>
    by_cases h5 : "Union" = head <;> simp [h5] <;>
    by_cases h6 : "Option" = head <;> simp [h6] <;>
    by_cases h7 : "string" = head <;> simp [h7] <;>
    tauto
  · intro con hcon
    simp only [build_ds, hcon]
  · intro hnone
    refine ⟨?_, ?_⟩
    · simp only [build_ds, hnone]
    · intro pos src hc
      exact Err.noConfusion hc

/-- Witness for C5: `Option(int32)` resolves to the `Option` constructor
applied to its argument, and `Bogus(int32)` fails with the head name. -/
theorem reserved_head_application_witness :
    build_ds (.tyappl "Option" [.Bit "int32"]) = .ok (.OptionCon [.Bit "int32"]) ∧
    build_ds (.tyappl "Bogus" [.Bit "int32"]) = .error (.nameError "Bogus") :=
  ⟨(reserved_head_application "Option" [.Bit "int32"]).2.1 _ rfl,
   ((reserved_head_application "Bogus" [.Bit "int32"]).2.2 rfl).1⟩

/-- Helper for C6: `buildFields` maps each record item to its field name
paired with the build of the FIRST component of the item's right-hand side. -/
theorem buildFields_of_forall₂ (elts : List (String × List PNode))
    (fields : List (String × Ty))
    (h : List.Forall₂
        (fun e f => e.1 = f.1 ∧ ∃ b0 bs, e.2 = b0 :: bs ∧ build_ds b0 = .ok f.2)
        elts fields) :
    buildFields elts = .ok fields := by
  induction h with
  | nil => rfl
  | cons hef _ ih =>
      rename_i e f es fs _
      obtain ⟨hname, b0, bs, hsplit, hbuild⟩ := hef
      cases e with
      | mk a b =>
          cases f with
          | mk c t =>
              simp only at hname hsplit
              subst hname hsplit
              simp only [buildFields, hbuild, ih, Except.bind, Except.map]

/-- C6 (corrected): the record branch of the type builder returns a `Record`
whose field list pairs each field name, in source order and keeping
duplicates, with the build of the FIRST component of that field's right-hand
side (`build_ds(b[0])`), not of the full component tuple. -/
theorem record_fields_first_component (elts : List (String × List PNode))
    (fields : List (String × Ty))
    (h : List.Forall₂
        (fun e f => e.1 = f.1 ∧ ∃ b0 bs, e.2 = b0 :: bs ∧ build_ds b0 = .ok f.2)
        elts fields) :
    build_ds (.tyrecord elts) = .ok (.Record fields) := by
  simp only [build_ds, buildFields_of_forall₂ elts fields h, Except.map]

/-- Witness for C6: order preserved, duplicate names kept, and the
multi-component field `E : (A, B)` lowered via its first component. -/
theorem record_fields_first_component_witness :
    build_ds (.tyrecord
        [("a", [.pnum 2]), ("a", [.bittype "int32"]), ("E", [.pname "A", .pname "B"])]) =
      .ok (.Record [("a", .Fixed 2), ("a", .Bit "int32"), ("E", .TypeVar "A")]) :=
  record_fields_first_component _ _
    (.cons ⟨rfl, .pnum 2, [], rfl, rfl⟩
      (.cons ⟨rfl, .bittype "int32", [], rfl, rfl⟩
        (.cons ⟨rfl, .pname "A", [.pname "B"], rfl, rfl⟩ .nil)))

/-- Counterexample for C6 as stated: for the record literal `{E : (A, B)}`
the built field type is `TypeVar "A"` — the build of the first component
only — while the full build of the field's right-hand side `(A, B)` is
`DataShape [TypeVar "A", TypeVar "B"]`, a different `Type`. -/
theorem record_fields_full_build_counterexample :
    build_ds (.tyrecord [("E", [.pname "A", .pname "B"])]) =
      .ok (.Record [("E", .TypeVar "A")]) ∧
    build_ds (.tyinst [.pname "A", .pname "B"]) =
      .ok (.DataShape [.TypeVar "A", .TypeVar "B"]) ∧
    Ty.TypeVar "A" ≠ Ty.DataShape [.TypeVar "A", .TypeVar "B"] :=
  ⟨rfl, rfl, fun hc => Ty.noConfusion hc⟩

end Blaze

namespace Blaze

/-! ## The tokenizer

PLY builds one master scanner from `parser.py`: ignored characters are
skipped one at a time before anything else, then the function rules are
tried in definition order (`t_TYPE`, `t_newline`, `t_NAME`, `t_COMMENT`,
`t_NUMBER`, `t_STRING`), then the one-character string rules, then the
declared literals, and finally `t_error` raises.  The lexer here runs
eagerly over the whole input; on every input that lexes completely this
agrees with PLY's on-demand lexing. -/

/-- The token kinds of `parser.py` (`tokens` plus the literals `(` `)`;
the other literals are shadowed by the equally long string rules). -/
inductive Token where
  | TYPE
  | NAME (s : String)
  | BIT (s : String)
  | NUMBER (n : Nat)
  | STRING (s : String)
  | EQUALS | COMMA | COLON | SEMI | LBRACE | RBRACE
  | LPAREN | RPAREN
  deriving DecidableEq, Repr

/-- A token together with its byte offset (`lexpos`). -/
structure PosToken where
  tok : Token
  pos : Nat
  deriving DecidableEq, Repr

/-- The single-quote character (ASCII 39). -/
def squoteChar : Char := Char.ofNat 39

/-- The backslash character (ASCII 92). -/
def backslashChar : Char := Char.ofNat 92

/-- The opening-brace character (ASCII 123). -/
def lbraceChar : Char := Char.ofNat 123

/-- The closing-brace character (ASCII 125). -/
def rbraceChar : Char := Char.ofNat 125

/-- `t_ignore = '[ ]'`: PLY treats the value as a plain character set, so
the characters `[`, space and `]` are all skipped at token boundaries. -/
def tIgnore : List Char := ['[', ' ', ']']

/-- `[a-zA-Z_]`, the first character of `t_NAME`. -/
def isNameStart (c : Char) : Bool := c.isAlpha || c = '_'

/-- `[a-zA-Z0-9_]`, the later characters of `t_NAME`. -/
def isNameChar (c : Char) : Bool := c.isAlpha || c.isDigit || c = '_'

/-- `int(t.value)` on a digit run. -/
def digitsToNat (ds : List Char) : Nat :=
  ds.foldl (fun a c => a * 10 + (c.toNat - '0'.toNat)) 0

/-- The body scan of `t_STRING` after the opening quote `q`: a plain
character is anything but the quote, a newline, a carriage return or a
backslash; a backslash escapes any following character except a newline
(the regex alternatives `\xHH+` and `\\.` cover the same extents).
Returns the raw inner text and the remaining characters, or `none` when
the regex cannot match (PLY then falls through to `t_error`).  The Python
code afterwards decodes the inner text with the external
`unicode_escape` codec, which we leave unmodelled: tokens carry the raw
inner text. -/
def scanString (q : Char) : List Char → Option (List Char × List Char)
  | [] => none
  | c :: cs =>
      if c = q then some ([], cs)
      else if c = '\n' ∨ c = '\r' then none
      else if c = backslashChar then
        match cs with
        | [] => none
        | e :: cs2 =>
            if e = '\n' then none
            else (scanString q cs2).map (fun p => (c :: e :: p.1, p.2))
      else (scanString q cs).map (fun p => (c :: p.1, p.2))

/-- The outcome of one step of the PLY scanner: skip `k` characters, or
emit one token spanning `k` characters, or fail on the current character.
`rest` is the remaining input after the step. -/
inductive LexStep where
  | skip (k : Nat) (rest : List Char)
  | tok (t : Token) (k : Nat) (rest : List Char)
  | err (c : Char)

/-- One decision of the PLY scanner at the character `c` followed by `cs`:
ignored characters are skipped before anything else, then the function
rules in definition order (`t_TYPE`, `t_newline`, `t_NAME`, `t_COMMENT`,
`t_NUMBER`, `t_STRING`), then the one-character string rules, then the
literals `(` and `)`, and otherwise `t_error`. -/
def lexStep (c : Char) (cs : List Char) : LexStep :=
  if c ∈ tIgnore then
    .skip 1 cs
  else if List.isPrefixOf ['t', 'y', 'p', 'e'] (c :: cs) then
    .tok .TYPE 4 (cs.drop 3)
  else if c = '\n' then
    .skip (1 + (cs.takeWhile (fun d => d = '\n')).length)
      (cs.dropWhile (fun d => d = '\n'))
  else if isNameStart c then
    .tok
      (if String.mk (c :: cs.takeWhile isNameChar) ∈ bits then
        .BIT (String.mk (c :: cs.takeWhile isNameChar))
      else .NAME (String.mk (c :: cs.takeWhile isNameChar)))
      (c :: cs.takeWhile isNameChar).length
      (cs.dropWhile isNameChar)
  else if c = '#' then
    .skip (1 + (cs.takeWhile (fun d => d ≠ '\n')).length)
      (cs.dropWhile (fun d => d ≠ '\n'))
  else if c.isDigit then
    .tok (.NUMBER (digitsToNat (c :: cs.takeWhile Char.isDigit)))
      (c :: cs.takeWhile Char.isDigit).length
      (cs.dropWhile Char.isDigit)
  else if c = '"' ∨ c = squoteChar then
    match scanString c cs with
    | some (inner, rest) => .tok (.STRING (String.mk inner)) (inner.length + 2) rest
    | none => .err c
  else if c = '=' then .tok .EQUALS 1 cs
  else if c = ',' then .tok .COMMA 1 cs
  else if c = ':' then .tok .COLON 1 cs
  else if c = ';' then .tok .SEMI 1 cs
  else if c = lbraceChar then .tok .LBRACE 1 cs
  else if c = rbraceChar then .tok .RBRACE 1 cs
  else if c = '(' then .tok .LPAREN 1 cs
  else if c = ')' then .tok .RPAREN 1 cs
  else .err c

/-- The scanner loop: repeat `lexStep`, recording each emitted token with
the byte offset at which it starts; fueled so that the definition is
structurally recursive (`fuel` at least the character count plus one
never runs out, as every step consumes at least one character). -/
def lexAux : Nat → Nat → List Char → Except Err (List PosToken)
  | 0, _, _ => .error .fuelError
  | _ + 1, _, [] => .ok []
  | fuel + 1, pos, c :: cs =>
      match lexStep c cs with
      | .skip k rest => lexAux fuel (pos + k) rest
      | .tok t k rest => (lexAux fuel (pos + k) rest).map (fun ts => ⟨t, pos⟩ :: ts)
      | .err ch => .error (.lexError ch)

/-- Tokenize a whole input text. -/
def lexer (s : String) : Except Err (List PosToken) :=
  lexAux (s.length + 1) 0 s.toList

/-- Forget the byte offsets of a lexer result. -/
def stripToks (r : Except Err (List PosToken)) : Except Err (List Token) :=
  r.map (List.map PosToken.tok)

end Blaze

example : Blaze.lexer "type a = 2, int32" =
    .ok [⟨.TYPE, 0⟩, ⟨.NAME "a", 5⟩, ⟨.EQUALS, 7⟩, ⟨.NUMBER 2, 9⟩,
         ⟨.COMMA, 10⟩, ⟨.BIT "int32", 12⟩] := rfl

example : Blaze.lexer "[a]" = .ok [⟨.NAME "a", 1⟩] := rfl

namespace Blaze

/-! ## The grammar parser

A fueled recursive descent over the token list, accepting the grammar of
`parser.py` and running the same semantic actions (including the
`appl_args` actions, which call `build_ds` during parsing).  `p_error`
with a lookahead token raises `DatashapeSyntaxError(lexpos, "<stdin>",
lexdata)`; `p_error` at end of input only prints, after which PLY's
`parse` returns `None`. -/

/-- `p_error`: a present lookahead token raises the syntax error carrying
its byte offset and the source text; end of input aborts the parse with
no tree. -/
def perr {α : Type} (src : String) : List PosToken → Except Err α
  | [] => .error .syntaxEOF
  | t :: _ => .error (.syntaxError t.pos src)

/-- `record_name : NAME | BIT | TYPE` — the token's value (the keyword's
value is the text `type`). -/
def recordName : Token → Option String
  | .NAME s => some s
  | .BIT b => some b
  | .TYPE => some "type"
  | _ => none

/-- `lhs_expression`: one or more NAME tokens, as constructor name plus
parameter-name list. -/
def parseLhs (src : String) : Nat → List PosToken → Except Err ((String × List String) × List PosToken)
  | 0, _ => .error .fuelError
  | fuel + 1, toks =>
      match toks with
      | ⟨.NAME s, _⟩ :: rest =>
          match rest with
          | ⟨.NAME _, _⟩ :: _ =>
              (parseLhs src fuel rest).map (fun p => ((s, p.1.1 :: p.1.2), p.2))
          | _ => .ok ((s, []), rest)
      | _ => perr src toks

mutual

/-- `mod : mod mod | stmt` — one or more statements; several statements
produce the nested Python list that `build_ds` later rejects. -/
def parseMod (src : String) : Nat → List PosToken → Except Err (PNode × List PosToken)
  | 0, _ => .error .fuelError
  | fuel + 1, toks => do
      let (s1, rest) ← parseStmt src fuel toks
      match rest with
      | [] => .ok (s1, [])
      | _ :: _ =>
          (parseMod src fuel rest).map (fun p => (.pmod s1 p.1, p.2))

/-- `stmt : TYPE lhs_expression EQUALS rhs_expression | rhs_expression`,
with the actions `p_statement_assign` and `p_statement_expr`. -/
def parseStmt (src : String) : Nat → List PosToken → Except Err (PNode × List PosToken)
  | 0, _ => .error .fuelError
  | fuel + 1, toks =>
      match toks with
      | ⟨.TYPE, _⟩ :: rest => do
          let (lhs, r1) ← parseLhs src fuel rest
          match r1 with
          | ⟨.EQUALS, _⟩ :: r2 => do
              let (rhs, r3) ← parseRhs src fuel r2
              .ok (.tydecl ⟨lhs.2.length, lhs.1, lhs.2⟩ rhs, r3)
          | _ => perr src r1
      | _ => do
          let (rhs, r1) ← parseRhs src fuel toks
          .ok (.tyinst rhs, r1)

/-- `rhs_expression`: comma-separated components, flattened by tuple
addition. -/
def parseRhs (src : String) : Nat → List PosToken → Except Err (List PNode × List PosToken)
  | 0, _ => .error .fuelError
  | fuel + 1, toks => do
      let (e, r1) ← parseElement src fuel toks
      match r1 with
      | ⟨.COMMA, _⟩ :: r2 =>
          (parseRhs src fuel r2).map (fun p => (e ++ p.1, p.2))
      | _ => .ok (e, r1)

/-- One `rhs_expression` component: `appl`, `record`, BIT, NAME or NUMBER
(each action yields a one-element tuple). -/
def parseElement (src : String) : Nat → List PosToken → Except Err (List PNode × List PosToken)
  | 0, _ => .error .fuelError
  | fuel + 1, toks =>
      match toks with
      | ⟨.LBRACE, _⟩ :: _ => do
          let (r, rest) ← parseRecord src fuel toks
          .ok ([r], rest)
      | ⟨.NAME s, _⟩ :: ⟨.LPAREN, _⟩ :: r2 => do
          let (args, r3) ← parseApplArgsClose src fuel r2
          .ok ([.tyappl s args], r3)
      | ⟨.NAME s, _⟩ :: r1 => .ok ([.pname s], r1)
      | ⟨.BIT b, _⟩ :: ⟨.LPAREN, _⟩ :: r2 => do
          let (args, r3) ← parseApplArgsClose src fuel r2
          .ok ([.tyappl b args], r3)
      | ⟨.BIT b, _⟩ :: r1 => .ok ([.bittype b], r1)
      | ⟨.NUMBER n, _⟩ :: r1 => .ok ([.pnum n], r1)
      | _ => perr src toks

/-- The `appl_args ')'` tail of `appl : NAME '(' appl_args ')'`. -/
def parseApplArgsClose (src : String) : Nat → List PosToken → Except Err (List Ty × List PosToken)
  | 0, _ => .error .fuelError
  | fuel + 1, toks => do
      let (args, r1) ← parseApplArgs src fuel toks
      match r1 with
      | ⟨.RPAREN, _⟩ :: r2 => .ok (args, r2)
      | _ => perr src r1

/-- `appl_args`: comma-separated application arguments, flattened. -/
def parseApplArgs (src : String) : Nat → List PosToken → Except Err (List Ty × List PosToken)
  | 0, _ => .error .fuelError
  | fuel + 1, toks => do
      let (a, r1) ← parseApplArg src fuel toks
      match r1 with
      | ⟨.COMMA, _⟩ :: r2 =>
          (parseApplArgs src fuel r2).map (fun p => (a ++ p.1, p.2))
      | _ => .ok (a, r1)

/-- One application argument with its grammar action: nested applications
and records are built on the spot (`build_ds(p[1][0])`), a parenthesized
`rhs_expression` builds only its first component (`build_ds(p[2][0])`),
NAME becomes `TypeVar`, BIT a registry lookup, NUMBER and STRING become
constants. -/
def parseApplArg (src : String) : Nat → List PosToken → Except Err (List Ty × List PosToken)
  | 0, _ => .error .fuelError
  | fuel + 1, toks =>
      match toks with
      | ⟨.NAME s, _⟩ :: ⟨.LPAREN, _⟩ :: r2 => do
          let (args, r3) ← parseApplArgsClose src fuel r2
          let t ← build_ds (.tyappl s args)
          .ok ([t], r3)
      | ⟨.NAME s, _⟩ :: r1 => .ok ([Ty.TypeVar s], r1)
      | ⟨.BIT b, _⟩ :: ⟨.LPAREN, _⟩ :: r2 => do
          let (args, r3) ← parseApplArgsClose src fuel r2
          let t ← build_ds (.tyappl b args)
          .ok ([t], r3)
      | ⟨.BIT b, _⟩ :: r1 =>
          (match typeRegistry b with
           | some t => .ok ([t], r1)
           | none => .error .keyError)
      | ⟨.NUMBER n, _⟩ :: r1 => .ok ([Ty.IntegerConstant n], r1)
      | ⟨.STRING s, _⟩ :: r1 => .ok ([Ty.StringConstant s], r1)
      | ⟨.LBRACE, _⟩ :: _ => do
          let (r, rest) ← parseRecord src fuel toks
          let t ← build_ds r
          .ok ([t], rest)
      | ⟨.LPAREN, _⟩ :: r1 => do
          let (rhs, r2) ← parseRhs src fuel r1
          match r2 with
          | ⟨.RPAREN, _⟩ :: r3 =>
              match rhs with
              | r0 :: _ => do
                  let t ← build_ds r0
                  .ok ([t], r3)
              | [] => .error .indexError
          | _ => perr src r2
      | _ => perr src toks

/-- `record : LBRACE record_opt RBRACE`. -/
def parseRecord (src : String) : Nat → List PosToken → Except Err (PNode × List PosToken)
  | 0, _ => .error .fuelError
  | fuel + 1, toks =>
      match toks with
      | ⟨.LBRACE, _⟩ :: r1 => do
          let (elts, r2) ← parseRecordOpt src fuel r1
          match r2 with
          | ⟨.RBRACE, _⟩ :: r3 => .ok (.tyrecord elts, r3)
          | _ => perr src r2
      | _ => perr src toks

/-- `record_opt`: record items separated by `;`, where an item may be
empty on either side of a separator (so leading, trailing and repeated
semicolons are legal). -/
def parseRecordOpt (src : String) : Nat → List PosToken → Except Err (List (String × List PNode) × List PosToken)
  | 0, _ => .error .fuelError
  | fuel + 1, toks => do
      let (it, r1) ← parseRecordItemOpt src fuel toks
      match r1 with
      | ⟨.SEMI, _⟩ :: r2 =>
          (parseRecordOpt src fuel r2).map (fun p => (it ++ p.1, p.2))
      | _ => .ok (it, r1)

/-- An optional record item: present exactly when the lookahead can start
`record_name`. -/
def parseRecordItemOpt (src : String) : Nat → List PosToken → Except Err (List (String × List PNode) × List PosToken)
  | 0, _ => .error .fuelError
  | fuel + 1, toks =>
      match toks with
      | ⟨.NAME _, _⟩ :: _ | ⟨.BIT _, _⟩ :: _ | ⟨.TYPE, _⟩ :: _ =>
          (parseRecordItem src fuel toks).map (fun p => ([p.1], p.2))
      | _ => .ok ([], toks)

/-- `record_item : record_name COLON '(' rhs_expression ')' | record_name
COLON rhs_expression` — either way the item keeps the full component
tuple of the field's right-hand side. -/
def parseRecordItem (src : String) : Nat → List PosToken → Except Err ((String × List PNode) × List PosToken)
  | 0, _ => .error .fuelError
  | fuel + 1, toks =>
      match toks with
      | t1 :: rest =>
          (match recordName t1.tok with
           | some nm =>
              match rest with
              | ⟨.COLON, _⟩ :: ⟨.LPAREN, _⟩ :: r3 => do
                  let (rhs, r4) ← parseRhs src fuel r3
                  match r4 with
                  | ⟨.RPAREN, _⟩ :: r5 => .ok ((nm, rhs), r5)
                  | _ => perr src r4
              | ⟨.COLON, _⟩ :: r2 => do
                  let (rhs, r3) ← parseRhs src fuel r2
                  .ok ((nm, rhs), r3)
              | _ => perr src rest
           | none => perr src toks)
      | [] => .error .syntaxEOF

end

/-- Run the grammar over a token list: a completed parse yields the tree,
a syntax error at a token propagates, and reaching end of input without a
completed statement yields `none` (PLY's `parse` returning `None` after
`p_error(None)`). -/
def parseToks (src : String) (toks : List PosToken) : Except Err (Option PNode) :=
  match parseMod src (4 * toks.length + 8) toks with
  | .ok (t, _) => .ok (some t)
  | .error .syntaxEOF => .ok none
  | .error e => .error e

/-- Tokenize and parse one input text. -/
def parseInput (s : String) : Except Err (Option PNode) := do
  let toks ← lexer s
  parseToks s toks

/-- `parse(pattern)` of `parser.py`: run the parser, then `build_ds` on
its result. -/
def parse (s : String) : Except Err Ty :=
  (parseInput s).bind build_ds_top

end Blaze

example : Blaze.parse "a" = .ok (.TypeVar "a") := rfl
example : Blaze.parse "2, int32" = .ok (.DataShape [.Fixed 2, .Bit "int32"]) := rfl
example : Blaze.parse "type T x y = 3" =
    .error (.typeError "building a simple dshape with type parameters is not supported") := rfl
example : Blaze.parse "Bogus(int32)" = .error (.nameError "Bogus") := rfl
example : Blaze.parse "Option(int32)" = .ok (.OptionCon [.Bit "int32"]) := rfl
example : Blaze.parse "{x:int32; y:int32}" =
    .ok (.Record [("x", .Bit "int32"), ("y", .Bit "int32")]) := rfl
example : Blaze.parse ", a" = .error (.syntaxError 0 ", a") := rfl
example : Blaze.parseInput "type" = .ok none := rfl
example : Blaze.parseInput "" = .ok none := rfl

namespace Blaze

/-! ## Claims about the parse driver and the tokenizer -/

/-- C7: whenever the parser reaches end of input without a completed
statement (`parseInput` yields `None`), `parse` fails — with the
`ValueError` that `build_ds` raises on `None` — and that failure is
distinct from the `SyntaxError` (byte offset plus original source text)
raised on malformed input; `parse` never returns a value on such input. -/
theorem eof_parse_failure_distinct (s : String)
    (h : parseInput s = .ok none) :
    parse s = .error (.valueError "Invalid construction from Datashape parser: None") ∧
    (∀ t, parse s ≠ .ok t) ∧
    (∀ pos src, Err.valueError "Invalid construction from Datashape parser: None" ≠
        Err.syntaxError pos src) := by
  have hp : parse s = .error (.valueError "Invalid construction from Datashape parser: None") := by
    unfold parse
    rw [h]
    rfl
  refine ⟨hp, ?_, ?_⟩
  · intro t hc
    rw [hp] at hc
    exact Except.noConfusion hc
  · intro pos src hc
    exact Err.noConfusion hc

/-- Witness for C7: the incomplete statement `type` reaches end of input
and `parse` fails with the non-syntax failure. -/
theorem eof_parse_failure_distinct_witness :
    parseInput "type" = .ok none ∧
    parse "type" = .error (.valueError "Invalid construction from Datashape parser: None") :=
  ⟨rfl, (eof_parse_failure_distinct "type" rfl).1⟩

/-- Pushing `stripToks` through the token-consing of one lexer step. -/
theorem stripToks_map_cons (r : Except Err (List PosToken)) (t : Token) (p : Nat) :
    stripToks (r.map (fun ts => ⟨t, p⟩ :: ts)) = (stripToks r).map (fun ts => t :: ts) := by
  cases r <;> rfl

/-- The token kinds and values produced by the scanner do not depend on
the starting byte offset (only the recorded positions do). -/
theorem lexAux_tok_pos_independent : (fuel : Nat) → ∀ (pos qos : Nat) (cs : List Char),
    stripToks (lexAux fuel pos cs) = stripToks (lexAux fuel qos cs)
  | 0 => by
      intro pos qos cs
      rfl
  | fuel + 1 => by
      intro pos qos cs
      match cs with
      | [] => rfl
      | c :: cs =>
          rw [lexAux.eq_3, lexAux.eq_3]
          cases lexStep c cs with
          | skip k rest => exact lexAux_tok_pos_independent fuel _ _ _
          | tok t k rest =>
              simp only
              rw [stripToks_map_cons, stripToks_map_cons]
              apply congrArg
              exact lexAux_tok_pos_independent fuel _ _ _
          | err ch => rfl

/-- A character in the ignore set is consumed by the scanner with no
token emitted (`t_ignore` is checked before every rule). -/
theorem lexStep_ignored (c : Char) (cs : List Char) (h : c ∈ tIgnore) :
    lexStep c cs = .skip 1 cs := by
  simp only [lexStep, if_pos h]

/-- C10: the tokenizer silently skips `[` and `]` at every token boundary
exactly as it skips spaces — at any scanner step an ignored character is
consumed and the produced token kinds and values (and any lexical error)
are exactly those of the input without it — so inserting or deleting such
characters between tokens leaves the parse result unchanged, as in
`parse("[a]") = parse("a")`. -/
theorem ignored_bracket_characters_skipped (c : Char) (fuel pos : Nat) (cs : List Char)
    (h : c ∈ tIgnore) :
    stripToks (lexAux (fuel + 1) pos (c :: cs)) = stripToks (lexAux fuel pos cs) ∧
    parse "[a]" = parse "a" ∧
    parse "a" = .ok (.TypeVar "a") := by
  have ha : parse "a" = .ok (.TypeVar "a") := rfl
  have hb : parse "[a]" = .ok (.TypeVar "a") := rfl
  refine ⟨?_, hb.trans ha.symm, ha⟩
  rw [lexAux.eq_3, lexStep_ignored c cs h]
  exact lexAux_tok_pos_independent fuel _ _ _

/-- Witness for C10: skipping a concrete `[` in front of `a]`. -/
theorem ignored_bracket_characters_skipped_witness :
    ('[' ∈ tIgnore) ∧
    stripToks (lexAux 3 0 ['[', 'a', ']']) = stripToks (lexAux 2 0 ['a', ']']) :=
  ⟨by decide, (ignored_bracket_characters_skipped '[' 2 0 ['a', ']'] (by decide)).1⟩

end Blaze

namespace Blaze

/-! ## The ATerm tree (`blaze.expr.paterm`)

`plan.py` consumes the ATerm intermediate representation defined in the
external module `blaze/expr/paterm.py`. -/

mutual

/-- Modelled from the spec: the ATerm tree of `blaze.expr.paterm` (§3 of
the spec; `paterm.py` is not part of the sources): `Term(label)`,
`AppliedTerm(head, ordered children, optional annotation)` and the
integer, float and string literals.  Float payloads are only stored by
the generator, never computed with, so they are carried as an opaque
integer code.  A string literal built by `BlazeVisitor.Literal`
(plan.py line 310) is lowered as a plain `Term` whose label is the
string value. -/
inductive ATerm where
  | term (label : String) (anno : Option AAnn)
  | appl (spine : ATerm) (args : List ATerm) (anno : Option AAnn)
  | aint (n : Int) (anno : Option AAnn)
  | afloat (f : Int) (anno : Option AAnn)
  | astring (s : String) (anno : Option AAnn)

/-- Modelled from the spec: the annotation object of `paterm` as used
by `plan.py`: the shape type rendered as an aterm (its `.ty`) and the
metadata tuple (its `.meta`). -/
inductive AAnn where
  | mk (ty : ATerm) (meta : List ATerm)

end

mutual

/-- Structural equality of aterms, standing in for the term identity that
keys the variable table (annotations carry the source graph-node identity,
so distinct graph nodes have unequal aterms). -/
def beqATerm : ATerm → ATerm → Bool
  | .term l1 a1, .term l2 a2 => l1 == l2 && beqAnnOpt a1 a2
  | .appl s1 as1 a1, .appl s2 as2 a2 =>
      beqATerm s1 s2 && beqATermList as1 as2 && beqAnnOpt a1 a2
  | .aint n1 a1, .aint n2 a2 => n1 == n2 && beqAnnOpt a1 a2
  | .afloat f1 a1, .afloat f2 a2 => f1 == f2 && beqAnnOpt a1 a2
  | .astring s1 a1, .astring s2 a2 => s1 == s2 && beqAnnOpt a1 a2
  | _, _ => false

/-- Pairwise equality of aterm lists. -/
def beqATermList : List ATerm → List ATerm → Bool
  | [], [] => true
  | x :: xs, y :: ys => beqATerm x y && beqATermList xs ys
  | _, _ => false

/-- Equality of optional annotations. -/
def beqAnnOpt : Option AAnn → Option AAnn → Bool
  | none, none => true
  | some (.mk t1 m1), some (.mk t2 m2) => beqATerm t1 t2 && beqATermList m1 m2
  | _, _ => false

end

mutual

theorem beqATerm_refl : (a : ATerm) → beqATerm a a = true
  | .term l a => by simp [beqATerm, beqAnnOpt_refl a]
  | .appl s as a => by
      simp [beqATerm, beqATerm_refl s, beqATermList_refl as, beqAnnOpt_refl a]
  | .aint n a => by simp [beqATerm, beqAnnOpt_refl a]
  | .afloat f a => by simp [beqATerm, beqAnnOpt_refl a]
  | .astring s a => by simp [beqATerm, beqAnnOpt_refl a]

theorem beqATermList_refl : (l : List ATerm) → beqATermList l l = true
  | [] => by simp [beqATermList]
  | x :: xs => by simp [beqATermList, beqATerm_refl x, beqATermList_refl xs]

theorem beqAnnOpt_refl : (a : Option AAnn) → beqAnnOpt a a = true
  | none => by simp [beqAnnOpt]
  | some (.mk t m) => by simp [beqAnnOpt, beqATerm_refl t, beqATermList_refl m]

end

mutual

theorem beqATerm_sound : (a b : ATerm) → beqATerm a b = true → a = b
  | .term l1 a1, .term l2 a2 => by
      simp only [beqATerm, Bool.and_eq_true, beq_iff_eq]
      rintro ⟨h1, h2⟩
      rw [h1, beqAnnOpt_sound a1 a2 h2]
  | .appl s1 as1 a1, .appl s2 as2 a2 => by
      simp only [beqATerm, Bool.and_eq_true]
      rintro ⟨⟨h1, h2⟩, h3⟩
      rw [beqATerm_sound s1 s2 h1, beqATermList_sound as1 as2 h2,
        beqAnnOpt_sound a1 a2 h3]
  | .aint n1 a1, .aint n2 a2 => by
      simp only [beqATerm, Bool.and_eq_true, beq_iff_eq]
      rintro ⟨h1, h2⟩
      rw [h1, beqAnnOpt_sound a1 a2 h2]
  | .afloat f1 a1, .afloat f2 a2 => by
      simp only [beqATerm, Bool.and_eq_true, beq_iff_eq]
      rintro ⟨h1, h2⟩
      rw [h1, beqAnnOpt_sound a1 a2 h2]
  | .astring s1 a1, .astring s2 a2 => by
      simp only [beqATerm, Bool.and_eq_true, beq_iff_eq]
      rintro ⟨h1, h2⟩
      rw [h1, beqAnnOpt_sound a1 a2 h2]
  | .term _ _, .appl _ _ _ | .term _ _, .aint _ _ | .term _ _, .afloat _ _
  | .term _ _, .astring _ _ | .appl _ _ _, .term _ _ | .appl _ _ _, .aint _ _
  | .appl _ _ _, .afloat _ _ | .appl _ _ _, .astring _ _ | .aint _ _, .term _ _
  | .aint _ _, .appl _ _ _ | .aint _ _, .afloat _ _ | .aint _ _, .astring _ _
  | .afloat _ _, .term _ _ | .afloat _ _, .appl _ _ _ | .afloat _ _, .aint _ _
  | .afloat _ _, .astring _ _ | .astring _ _, .term _ _ | .astring _ _, .appl _ _ _
  | .astring _ _, .aint _ _ | .astring _ _, .afloat _ _ => by
      simp [beqATerm]

theorem beqATermList_sound : (l m : List ATerm) → beqATermList l m = true → l = m
  | [], [] => by simp
  | [], _ :: _ | _ :: _, [] => by simp [beqATermList]
  | x :: xs, y :: ys => by
      simp only [beqATermList, Bool.and_eq_true]
      rintro ⟨h1, h2⟩
      rw [beqATerm_sound x y h1, beqATermList_sound xs ys h2]

theorem beqAnnOpt_sound : (a b : Option AAnn) → beqAnnOpt a b = true → a = b
  | none, none => by simp
  | none, some (.mk _ _) | some (.mk _ _), none => by simp [beqAnnOpt]
  | some (.mk t1 m1), some (.mk t2 m2) => by
      simp only [beqAnnOpt, Bool.and_eq_true]
      rintro ⟨h1, h2⟩
      rw [beqATerm_sound t1 t2 h1, beqATermList_sound m1 m2 h2]

end

instance : BEq ATerm := ⟨beqATerm⟩

instance : LawfulBEq ATerm where
  eq_of_beq h := beqATerm_sound _ _ h
  rfl := beqATerm_refl _

instance : DecidableEq ATerm := fun a b =>
  decidable_of_iff (beqATerm a b = true)
    ⟨beqATerm_sound a b, fun h => h ▸ beqATerm_refl a⟩

end Blaze

namespace Blaze

/-! ## ATerm → Instructions (`plan.py`, `InstructionGen`) -/

/-- A constant registered in the variable table (`Constant(n)` in
`plan.py`); integer and float literal payloads are kept apart. -/
inductive CVal where
  | cint (n : Int)
  | cfloat (f : Int)
  deriving DecidableEq, Repr

/-- A value of the variable table: either a generated temporary name
`%k` (the Python string `'%' + str(k)`, carried as its index `k`) or a
registered constant. -/
inductive Entry where
  | name (k : Nat)
  | const (c : CVal)
  deriving DecidableEq, Repr

/-- `Instruction(fn, datashape, args, lhs, fillvalue)` of `plan.py`.
`fn` is the operator's or executor's textual identity; `datashape` is the
argument list that `get_datashape` assembles and hands to the external
`datashape(*args)` constructor (`blaze.datashape` is not in the sources,
so the instruction keeps the assembled list). -/
structure Instruction where
  fn : String
  datashape : List (Int ⊕ String)
  args : List Entry
  lhs : Option Entry
  fillvalue : Option Int
  deriving DecidableEq, Repr

/-- The mutable state of one `InstructionGen` visit: the counter `self.n`,
the variable table `self._vartable` (keyed by term, newest binding first,
mirroring dict assignment) and the instruction list `self._instructions`.
-/
structure IGState where
  n : Nat
  vartable : List (ATerm × Entry)
  instructions : List Instruction
  deriving DecidableEq

/-- The annotation slot of an aterm. -/
def ATerm.anno : ATerm → Option AAnn
  | .term _ a => a
  | .appl _ _ a => a
  | .aint _ a => a
  | .afloat _ a => a
  | .astring _ a => a

/-- The argument walk of `get_datashape`: `AInt` contributes its number,
`AString` its string, anything else raises `NotImplementedError`. -/
def dsArgs : List ATerm → Except Err (List (Int ⊕ String))
  | [] => .ok []
  | .aint n _ :: rest => (dsArgs rest).map (fun l => .inl n :: l)
  | .astring s _ :: rest => (dsArgs rest).map (fun l => .inr s :: l)
  | _ :: _ => .error (.notImplementedError "get_datashape argument")

/-- `get_datashape(term)` of `plan.py`: read `term.annotation.ty`, walk
its arguments, and assemble the datashape (the external `datashape(*args)`
call keeps the assembled argument list in this model).  A missing
annotation or a `ty` with no argument list is a Python `AttributeError`.
-/
def get_datashape (t : ATerm) : Except Err (List (Int ⊕ String)) :=
  match t.anno with
  | none => .error .attributeError
  | some (.mk ty _) =>
      match ty with
      | .appl _ args _ => dsArgs args
      | _ => .error .attributeError

/-- `self._vartable[term]`: dict lookup by term identity; a missing key
is a Python `KeyError`. -/
def varLookup (vt : List (ATerm × Entry)) (a : ATerm) : Except Err Entry :=
  match vt.find? (fun p => p.1 == a) with
  | some p => .ok p.2
  | none => .error .keyError

/-- `[self._vartable[a] for a in args]`. -/
def varLookupList (vt : List (ATerm × Entry)) : List ATerm → Except Err (List Entry)
  | [] => .ok []
  | a :: rest =>
      (varLookup vt a).bind (fun e =>
        (varLookupList vt rest).map (fun es => e :: es))

/-- `self.executors[executor_id.label]`: dict lookup, a missing key is a
Python `KeyError`. -/
def exLookup (ex : String → Option String) (k : String) : Except Err String :=
  match ex k with
  | some e => .ok e
  | none => .error .keyError

/-- `fargs[-1]`: the last element, an `IndexError` on an empty list. -/
def lastOrErr (l : List Entry) : Except Err Entry :=
  match l.getLast? with
  | some x => .ok x
  | none => .error .indexError

mutual

/-- `InstructionGen`'s visit of one aterm, with the operator-lookup
collaborator `lk` (`blaze.rts.funcs.lookup`, returning the operator's
textual identity `str(fn.fn)` paired with its cost) and the executor
table `ex` (`self.executors`, mapping executor ids to the executor's
textual identity).  Dispatch follows `MroVisitor`: `AAppl` on the spine
label, `AInt`/`AFloat` registering constants, and every other leaf
(including the plain terms that string literals lower to) falling back
to the `ATerm` handler, which does nothing. -/
def runTerm (lk : ATerm → String × Nat) (ex : String → Option String) :
    ATerm → IGState → Except Err IGState
  | t@(.appl spine args tanno), s =>
      match spine with
      | .term label _ =>
          if label = "Arithmetic" then
            -- InstructionGen._Arithmetic
            match args with
            | [] => .error .indexError
            | op :: rest =>
                match op with
                | .term opLabel _ => do
                    let s1 ← runList lk ex rest s
                    -- normal_term = AAppl(ATerm(op), args): the operator
                    -- label rewrapped as an unannotated term
                    let fn := (lk (.appl (.term opLabel none) rest none)).1
                    let fargs ← varLookupList s1.vartable rest
                    let key := s1.n
                    let s2 : IGState :=
                      ⟨s1.n + 1, (t, .name key) :: s1.vartable, s1.instructions⟩
                    let ds ← get_datashape t
                    .ok { s2 with instructions :=
                      s2.instructions ++ [⟨fn, ds, fargs, some (.name key), none⟩] }
                | _ => .error .assertionError
          else if label = "Array" then
            -- InstructionGen._Array: always a fresh variable, no instruction
            .ok ⟨s.n + 1, (t, .name s.n) :: s.vartable, s.instructions⟩
          else if label = "Slice" then
            -- InstructionGen._Slice: pass
            .ok s
          else if label = "Assign" then
            -- InstructionGen._Assign: pass
            .ok s
          else if label = "Executor" then
            -- InstructionGen._Executor
            match tanno with
            | none => .error .attributeError
            | some (.mk _ meta) =>
                match meta with
                | [eid, _backend, hl] =>
                    match hl, eid with
                    | .term hlLabel _, .term eidLabel _ => do
                        let executor ← exLookup ex eidLabel
                        let s1 ← runList lk ex args s
                        let fargs ← varLookupList s1.vartable args
                        if hlLabel ≠ "" then do
                          let lst ← lastOrErr fargs
                          let ds ← get_datashape t
                          .ok { s1 with instructions := s1.instructions ++
                            [⟨executor, ds, fargs.dropLast, some lst, none⟩] }
                        else do
                          let ds ← get_datashape t
                          .ok { s1 with instructions := s1.instructions ++
                            [⟨executor, ds, fargs, none, none⟩] }
                    | _, _ => .error .attributeError
                | _ => .error (.valueError "unpack annotation metadata")
          else
            .error (.notImplementedError "AAppl dispatch")
      | _ => .error .attributeError
  | t@(.aint n _), s =>
      .ok { s with vartable := (t, .const (.cint n)) :: s.vartable }
  | t@(.afloat f _), s =>
      .ok { s with vartable := (t, .const (.cfloat f)) :: s.vartable }
  | .term _ _, s => .ok s
  | .astring _ _, s => .ok s

/-- `self.visit(args)` over a list of aterms, threading the state. -/
def runList (lk : ATerm → String × Nat) (ex : String → Option String) :
    List ATerm → IGState → Except Err IGState
  | [], s => .ok s
  | t :: ts, s => do
      let s1 ← runTerm lk ex t s
      runList lk ex ts s1

end

end Blaze

namespace Blaze

/-- `Except.bind` on a success, by definition. -/
theorem exceptBind_ok {α β : Type} (a : α) (f : α → Except Err β) :
    Except.bind (.ok a) f = f a := rfl

/-- `Except.bind` on a failure, by definition. -/
theorem exceptBind_err {α β : Type} (e : Err) (f : α → Except Err β) :
    (Except.bind (.error e) f : Except Err β) = .error e := rfl

/-- `Except.map` on a success, by definition. -/
theorem exceptMap_ok {α β : Type} (a : α) (f : α → β) :
    (Except.map f (.ok a) : Except Err β) = .ok (f a) := rfl

/-- `Except.map` on a failure, by definition. -/
theorem exceptMap_err {α β : Type} (e : Err) (f : α → β) :
    (Except.map f (.error e) : Except Err β) = .error e := rfl

/-- The monadic bind of `Except` on a success, by definition. -/
theorem bindOp_ok {α β : Type} (a : α) (f : α → Except Err β) :
    (Except.ok a >>= f) = f a := rfl

/-- The monadic bind of `Except` on a failure, by definition. -/
theorem bindOp_err {α β : Type} (e : Err) (f : α → Except Err β) :
    ((Except.error e : Except Err α) >>= f) = .error e := rfl

/-- C9: the `Assign` and `Slice` handlers are no-ops — the generator
returns with the variable table, the counter and the instruction list
exactly as they were (the handlers do not even visit children) — and a
bare `Array` term allocates exactly one fresh variable for itself and
emits no instruction. -/
theorem assign_slice_noop_array_allocates (lk : ATerm → String × Nat)
    (ex : String → Option String) (sanno tanno : Option AAnn)
    (args : List ATerm) (s : IGState) :
    runTerm lk ex (.appl (.term "Assign" sanno) args tanno) s = .ok s ∧
    runTerm lk ex (.appl (.term "Slice" sanno) args tanno) s = .ok s ∧
    runTerm lk ex (.appl (.term "Array" sanno) args tanno) s =
      .ok ⟨s.n + 1, (.appl (.term "Array" sanno) args tanno, .name s.n) :: s.vartable,
        s.instructions⟩ :=
  ⟨rfl, rfl, rfl⟩

/-- C8 (corrected): a numeric literal leaf (`AInt`/`AFloat`) is registered
in the variable table as a constant — not as a `%n` variable, and without
consuming the variable counter — and no instruction is emitted; but a
string literal leaf, which `BlazeVisitor.Literal` lowers to a plain
`ATerm` term, reaches the fallback `ATerm` handler and is registered as
nothing at all (the state is returned unchanged), also with no
instruction. -/
theorem numeric_leaves_constants_string_leaves_nothing
    (lk : ATerm → String × Nat) (ex : String → Option String)
    (n f : Int) (lbl str : String) (a : Option AAnn) (s : IGState) :
    runTerm lk ex (.aint n a) s =
      .ok { s with vartable := (.aint n a, .const (.cint n)) :: s.vartable } ∧
    runTerm lk ex (.afloat f a) s =
      .ok { s with vartable := (.afloat f a, .const (.cfloat f)) :: s.vartable } ∧
    runTerm lk ex (.term lbl a) s = .ok s ∧
    runTerm lk ex (.astring str a) s = .ok s :=
  ⟨rfl, rfl, rfl, rfl⟩

/-- Counterexample for C8 as stated: running the generator on the string
literal leaf `hello` (lowered as a plain term, plan.py line 310) leaves
the variable table empty — the leaf is not registered as a constant, so
"every numeric or string literal leaf is registered as a constant" fails
on string leaves. -/
theorem string_leaf_not_registered_counterexample :
    runTerm (fun _ => ("", 0)) (fun _ => none) (.term "hello" none) ⟨0, [], []⟩ =
      .ok ⟨0, [], []⟩ ∧
    (List.find? (fun p => p.1 == ATerm.term "hello" none)
      (⟨0, [], []⟩ : IGState).vartable) = none :=
  ⟨rfl, rfl⟩

end Blaze

namespace Blaze

/-- C2: compiling an `Arithmetic`-classified `Add` over two distinct
`Array` leaves allocates exactly the two leaf variables `%0` and `%1`
(in visit order) and the fresh result variable `%2`, and emits exactly
one instruction whose arguments are the two leaf variables in
left-to-right operand order, whose operator is the external lookup of
the rewrapped `Add` application, and whose left-hand side `%2` is
distinct from both argument variables. -/
theorem two_leaf_arithmetic_instruction (lk : ATerm → String × Nat)
    (ex : String → Option String)
    (sa sb sc oa tyA : Option AAnn) (tyS : ATerm)
    (argsA argsB tyArgs meta : List ATerm)
    (aA aB : Option AAnn) (dsl : List (Int ⊕ String))
    (A B root : ATerm)
    (hA : A = .appl (.term "Array" sa) argsA aA)
    (hB : B = .appl (.term "Array" sb) argsB aB)
    (hroot : root = .appl (.term "Arithmetic" sc) [.term "Add" oa, A, B]
        (some (.mk (.appl tyS tyArgs tyA) meta)))
    (hAB : A ≠ B)
    (hds : dsArgs tyArgs = .ok dsl) :
    runTerm lk ex root ⟨0, [], []⟩ =
      .ok ⟨3, [(root, .name 2), (B, .name 1), (A, .name 0)],
        [⟨(lk (.appl (.term "Add" none) [A, B] none)).1, dsl,
          [.name 0, .name 1], some (.name 2), none⟩]⟩ ∧
    (Entry.name 2 ≠ .name 0 ∧ Entry.name 2 ≠ .name 1 ∧ Entry.name 0 ≠ .name 1) := by
  refine ⟨?_, by decide, by decide, by decide⟩
  have h1 : runTerm lk ex A ⟨0, [], []⟩ = .ok ⟨1, [(A, .name 0)], []⟩ := by
    rw [hA]
    exact rfl
  have h2 : runTerm lk ex B ⟨1, [(A, .name 0)], []⟩ =
      .ok ⟨2, [(B, .name 1), (A, .name 0)], []⟩ := by
    rw [hB]
    exact rfl
  have hRL : runList lk ex [A, B] ⟨0, [], []⟩ =
      .ok ⟨2, [(B, .name 1), (A, .name 0)], []⟩ := by
    change (runTerm lk ex A ⟨0, [], []⟩ >>= _) = _
    rw [h1, bindOp_ok]
    change (runTerm lk ex B ⟨1, [(A, .name 0)], []⟩ >>= _) = _
    rw [h2, bindOp_ok]
    exact rfl
  have hBA : (B == A) = false := beq_eq_false_iff_ne.mpr (Ne.symm hAB)
  have hVL : varLookupList [(B, .name 1), (A, .name 0)] [A, B] =
      .ok [.name 0, .name 1] := by
    simp only [varLookupList, varLookup, List.find?, hBA, beq_self_eq_true,
      exceptBind_ok, exceptMap_ok]
  have hGD : get_datashape (ATerm.appl (.term "Arithmetic" sc)
      [.term "Add" oa, A, B] (some (.mk (.appl tyS tyArgs tyA) meta))) =
      dsArgs tyArgs := rfl
  rw [hroot]
  change (runList lk ex [A, B] ⟨0, [], []⟩ >>= _) = _
  rw [hRL, bindOp_ok]
  rw [hVL, bindOp_ok]
  rw [hGD, hds, bindOp_ok]
  exact rfl

/-- Witness for C2: a concrete `Add` over two array leaves distinguished
by their annotations compiles to one instruction `%2 = add(%0, %1)`. -/
theorem two_leaf_arithmetic_instruction_witness :
    (ATerm.appl (.term "Array" none) [] (some (.mk (.term "a" none) [.aint 1 none])) ≠
      ATerm.appl (.term "Array" none) [] (some (.mk (.term "b" none) [.aint 2 none]))) ∧
    (runTerm (fun _ => ("add", 1)) (fun _ => none)
      (.appl (.term "Arithmetic" none)
        [.term "Add" none,
         .appl (.term "Array" none) [] (some (.mk (.term "a" none) [.aint 1 none])),
         .appl (.term "Array" none) [] (some (.mk (.term "b" none) [.aint 2 none]))]
        (some (.mk (.appl (.term "dshape" none) [.astring "2, 2, int32" none] none) [])))
      ⟨0, [], []⟩ =
      .ok ⟨3,
        [(.appl (.term "Arithmetic" none)
            [.term "Add" none,
             .appl (.term "Array" none) [] (some (.mk (.term "a" none) [.aint 1 none])),
             .appl (.term "Array" none) [] (some (.mk (.term "b" none) [.aint 2 none]))]
            (some (.mk (.appl (.term "dshape" none) [.astring "2, 2, int32" none] none) [])),
          .name 2),
         (.appl (.term "Array" none) [] (some (.mk (.term "b" none) [.aint 2 none])), .name 1),
         (.appl (.term "Array" none) [] (some (.mk (.term "a" none) [.aint 1 none])), .name 0)],
        [⟨((fun (_ : ATerm) => (("add" : String), (1 : Nat)))
            (.appl (.term "Add" none)
              [.appl (.term "Array" none) [] (some (.mk (.term "a" none) [.aint 1 none])),
               .appl (.term "Array" none) [] (some (.mk (.term "b" none) [.aint 2 none]))]
              none)).1,
          [.inr "2, 2, int32"], [.name 0, .name 1], some (.name 2), none⟩]⟩ ∧
      (Entry.name 2 ≠ .name 0 ∧ Entry.name 2 ≠ .name 1 ∧ Entry.name 0 ≠ .name 1)) :=
  ⟨by decide,
   two_leaf_arithmetic_instruction (fun _ => ("add", 1)) (fun _ => none)
     none none none none none (.term "dshape" none)
     [] [] [.astring "2, 2, int32" none] []
     (some (.mk (.term "a" none) [.aint 1 none]))
     (some (.mk (.term "b" none) [.aint 2 none]))
     [.inr "2, 2, int32"] _ _ _ rfl rfl rfl (by decide) rfl⟩

end Blaze

namespace Blaze

/-! ## The bottom-up invariant of the instruction generator (C1) -/

/-- A variable-table value respects the counter: a generated name `%k`
was produced by a `var()` call that incremented the counter past `k`. -/
def entryBound (n : Nat) : Entry → Prop
  | .name k => k < n
  | .const _ => True

/-- The generator-state invariant: every table value respects the
counter, and every argument of every emitted instruction is a value
present in the variable table that respects the counter. -/
def stateOK (s : IGState) : Prop :=
  (∀ p ∈ s.vartable, entryBound s.n p.2) ∧
  (∀ inst ∈ s.instructions, ∀ e ∈ inst.args,
    e ∈ s.vartable.map Prod.snd ∧ entryBound s.n e)

theorem entryBound_mono {n m : Nat} (h : n ≤ m) : ∀ e, entryBound n e → entryBound m e
  | .name _, hk => Nat.lt_of_lt_of_le hk h
  | .const _, _ => trivial

theorem varLookup_mem {vt : List (ATerm × Entry)} {a : ATerm} {e : Entry}
    (h : varLookup vt a = .ok e) : e ∈ vt.map Prod.snd := by
  unfold varLookup at h
  cases hf : vt.find? (fun p => p.1 == a) with
  | none =>
      rw [hf] at h
      exact Except.noConfusion h
  | some p =>
      rw [hf] at h
      injection h with h
      exact h ▸ List.mem_map_of_mem Prod.snd (List.mem_of_find?_eq_some hf)

theorem varLookupList_mem {vt : List (ATerm × Entry)} :
    ∀ {ts : List ATerm} {es : List Entry},
      varLookupList vt ts = .ok es → ∀ e ∈ es, e ∈ vt.map Prod.snd
  | [], es => by
      intro h e he
      injection h with h
      subst h
      exact absurd he (List.not_mem_nil e)
  | a :: rest, es => by
      intro h e he
      unfold varLookupList at h
      cases hv : varLookup vt a with
      | error err =>
          rw [hv, exceptBind_err] at h
          exact Except.noConfusion h
      | ok e1 =>
          rw [hv, exceptBind_ok] at h
          cases hr : varLookupList vt rest with
          | error err =>
              rw [hr, exceptMap_err] at h
              exact Except.noConfusion h
          | ok es1 =>
              rw [hr, exceptMap_ok] at h
              injection h with h
              subst h
              rcases List.mem_cons.mp he with rfl | hmem
              · exact varLookup_mem hv
              · exact varLookupList_mem hr e hmem

/-- Allocating a fresh variable (`self.var(term)`) preserves the
invariant. -/
theorem stateOK_allocVar {s : IGState} (t : ATerm) (h : stateOK s) :
    stateOK ⟨s.n + 1, (t, .name s.n) :: s.vartable, s.instructions⟩ := by
  obtain ⟨htab, hinst⟩ := h
  constructor
  · intro p hp
    rcases List.mem_cons.mp hp with rfl | hmem
    · exact Nat.lt_succ_self s.n
    · exact entryBound_mono (Nat.le_succ s.n) _ (htab p hmem)
  · intro inst hi e he
    obtain ⟨hm, hb⟩ := hinst inst hi e he
    exact ⟨List.mem_cons_of_mem _ hm, entryBound_mono (Nat.le_succ s.n) _ hb⟩

/-- Registering a constant (`AInt`/`AFloat`) preserves the invariant. -/
theorem stateOK_consConst {s : IGState} (t : ATerm) (c : CVal) (h : stateOK s) :
    stateOK { s with vartable := (t, .const c) :: s.vartable } := by
  obtain ⟨htab, hinst⟩ := h
  constructor
  · intro p hp
    rcases List.mem_cons.mp hp with rfl | hmem
    · trivial
    · exact htab p hmem
  · intro inst hi e he
    obtain ⟨hm, hb⟩ := hinst inst hi e he
    exact ⟨List.mem_cons_of_mem _ hm, hb⟩

/-- Appending an instruction whose arguments are in-table, counter-
respecting values preserves the invariant. -/
theorem stateOK_appendInst {s : IGState} (inst : Instruction) (h : stateOK s)
    (hargs : ∀ e ∈ inst.args, e ∈ s.vartable.map Prod.snd ∧ entryBound s.n e) :
    stateOK { s with instructions := s.instructions ++ [inst] } := by
  obtain ⟨htab, hinst⟩ := h
  refine ⟨htab, ?_⟩
  intro i hi e he
  rcases List.mem_append.mp hi with hmem | hone
  · exact hinst i hmem e he
  · have : i = inst := List.mem_singleton.mp hone
    subst this
    exact hargs e he

end Blaze

namespace Blaze

/-- Every entry reachable in the table of a well-formed state respects
the counter. -/
theorem table_mem_bound {s : IGState} (h : stateOK s) {e : Entry}
    (he : e ∈ s.vartable.map Prod.snd) : entryBound s.n e := by
  obtain ⟨p, hp, hpe⟩ := List.mem_map.mp he
  exact hpe ▸ h.1 p hp

/-- An `AAppl` whose spine label is none of the five dispatched labels
raises `NotImplementedError`. -/
theorem runTerm_unknown_label (lk : ATerm → String × Nat) (ex : String → Option String)
    (label : String) (sanno : Option AAnn) (args : List ATerm) (tanno : Option AAnn)
    (s : IGState)
    (hl1 : ¬label = "Arithmetic") (hl2 : ¬label = "Array") (hl3 : ¬label = "Slice")
    (hl4 : ¬label = "Assign") (hl5 : ¬label = "Executor") :
    runTerm lk ex (.appl (.term label sanno) args tanno) s =
      .error (.notImplementedError "AAppl dispatch") := by
  cases args with
  | nil =>
      change (if _h : label = "Arithmetic" then _
        else if _h : label = "Array" then _
        else if _h : label = "Slice" then _
        else if _h : label = "Assign" then _
        else if _h : label = "Executor" then _
        else Except.error (Err.notImplementedError "AAppl dispatch")) = _
      rw [dif_neg hl1, dif_neg hl2, dif_neg hl3, dif_neg hl4, dif_neg hl5]
  | cons op rest =>
      change (if _h : label = "Arithmetic" then _
        else if _h : label = "Array" then _
        else if _h : label = "Slice" then _
        else if _h : label = "Assign" then _
        else if _h : label = "Executor" then _
        else Except.error (Err.notImplementedError "AAppl dispatch")) = _
      rw [dif_neg hl1, dif_neg hl2, dif_neg hl3, dif_neg hl4, dif_neg hl5]

mutual

/-- Preservation of the generator-state invariant by one visit: a
successful visit keeps the invariant, never decreases the counter, and
only appends to the instruction list. -/
theorem runTerm_stateOK (lk : ATerm → String × Nat) (ex : String → Option String) :
    (t : ATerm) → ∀ s s', runTerm lk ex t s = .ok s' → stateOK s →
      stateOK s' ∧ s.n ≤ s'.n ∧ s.instructions <+: s'.instructions
  | .term l a => by
      intro s s' h hok
      rw [show runTerm lk ex (.term l a) s = .ok s from rfl] at h
      injection h with h
      subst h
      exact ⟨hok, Nat.le_refl _, List.prefix_refl _⟩
  | .astring l a => by
      intro s s' h hok
      rw [show runTerm lk ex (.astring l a) s = .ok s from rfl] at h
      injection h with h
      subst h
      exact ⟨hok, Nat.le_refl _, List.prefix_refl _⟩
  | .aint n a => by
      intro s s' h hok
      rw [show runTerm lk ex (.aint n a) s =
        .ok { s with vartable := (.aint n a, .const (.cint n)) :: s.vartable } from rfl] at h
      injection h with h
      subst h
      exact ⟨stateOK_consConst _ _ hok, Nat.le_refl _, List.prefix_refl _⟩
  | .afloat f a => by
      intro s s' h hok
      rw [show runTerm lk ex (.afloat f a) s =
        .ok { s with vartable := (.afloat f a, .const (.cfloat f)) :: s.vartable } from rfl] at h
      injection h with h
      subst h
      exact ⟨stateOK_consConst _ _ hok, Nat.le_refl _, List.prefix_refl _⟩
  | .appl spine args tanno => by
      intro s s' h hok
      cases spine with
      | aint n a =>
          rw [show runTerm lk ex (.appl (.aint n a) args tanno) s =
            .error .attributeError from rfl] at h
          exact Except.noConfusion h
      | afloat f a =>
          rw [show runTerm lk ex (.appl (.afloat f a) args tanno) s =
            .error .attributeError from rfl] at h
          exact Except.noConfusion h
      | astring l a =>
          rw [show runTerm lk ex (.appl (.astring l a) args tanno) s =
            .error .attributeError from rfl] at h
          exact Except.noConfusion h
      | appl sp2 args2 anno2 =>
          rw [show runTerm lk ex (.appl (.appl sp2 args2 anno2) args tanno) s =
            .error .attributeError from rfl] at h
          exact Except.noConfusion h
      | term label sanno =>
          by_cases hl1 : label = "Arithmetic"
          · subst hl1
            cases args with
            | nil =>
                rw [show runTerm lk ex (.appl (.term "Arithmetic" sanno) [] tanno) s =
                  .error .indexError from rfl] at h
                exact Except.noConfusion h
            | cons op rest =>
                cases op with
                | aint n a =>
                    rw [show runTerm lk ex
                      (.appl (.term "Arithmetic" sanno) (.aint n a :: rest) tanno) s =
                      .error .assertionError from rfl] at h
                    exact Except.noConfusion h
                | afloat f a =>
                    rw [show runTerm lk ex
                      (.appl (.term "Arithmetic" sanno) (.afloat f a :: rest) tanno) s =
                      .error .assertionError from rfl] at h
                    exact Except.noConfusion h
                | astring l a =>
                    rw [show runTerm lk ex
                      (.appl (.term "Arithmetic" sanno) (.astring l a :: rest) tanno) s =
                      .error .assertionError from rfl] at h
                    exact Except.noConfusion h
                | appl sp2 args2 anno2 =>
                    rw [show runTerm lk ex
                      (.appl (.term "Arithmetic" sanno) (.appl sp2 args2 anno2 :: rest) tanno) s =
                      .error .assertionError from rfl] at h
                    exact Except.noConfusion h
                | term opLabel oanno =>
                    change (runList lk ex rest s >>= _) = _ at h
                    cases hrl : runList lk ex rest s with
                    | error e =>
                        rw [hrl, bindOp_err] at h
                        exact Except.noConfusion h
                    | ok s1 =>
                        rw [hrl, bindOp_ok] at h
                        cases hfl : varLookupList s1.vartable rest with
                        | error e =>
                            rw [hfl, bindOp_err] at h
                            exact Except.noConfusion h
                        | ok fargs =>
                            rw [hfl, bindOp_ok] at h
                            cases hds : get_datashape
                                (.appl (.term "Arithmetic" sanno)
                                  (.term opLabel oanno :: rest) tanno) with
                            | error e =>
                                rw [hds, bindOp_err] at h
                                exact Except.noConfusion h
                            | ok ds =>
                                rw [hds, bindOp_ok] at h
                                injection h with h
                                subst h
                                obtain ⟨hok1, hn1, hp1⟩ :=
                                  runList_stateOK lk ex rest s s1 hrl hok
                                have halloc := stateOK_allocVar
                                  (.appl (.term "Arithmetic" sanno)
                                    (.term opLabel oanno :: rest) tanno) hok1
                                have hargs : ∀ e ∈ fargs,
                                    e ∈ ((ATerm.appl (.term "Arithmetic" sanno)
                                        (.term opLabel oanno :: rest) tanno,
                                      Entry.name s1.n) :: s1.vartable).map Prod.snd ∧
                                    entryBound (s1.n + 1) e := by
                                  intro e he
                                  have hm := varLookupList_mem hfl e he
                                  exact ⟨List.mem_cons_of_mem _ hm,
                                    entryBound_mono (Nat.le_succ _) _ (table_mem_bound hok1 hm)⟩
                                refine ⟨stateOK_appendInst
                                    ⟨(lk (.appl (.term opLabel none) rest none)).1, ds, fargs,
                                      some (.name s1.n), none⟩ halloc hargs,
                                  Nat.le_trans hn1 (Nat.le_succ _),
                                  hp1.trans (List.prefix_append _ _)⟩
          · by_cases hl2 : label = "Array"
            · subst hl2
              rw [show runTerm lk ex (.appl (.term "Array" sanno) args tanno) s =
                .ok ⟨s.n + 1, (.appl (.term "Array" sanno) args tanno, .name s.n) :: s.vartable,
                  s.instructions⟩ from rfl] at h
              injection h with h
              subst h
              exact ⟨stateOK_allocVar _ hok, Nat.le_succ _, List.prefix_refl _⟩
            · by_cases hl3 : label = "Slice"
              · subst hl3
                rw [show runTerm lk ex (.appl (.term "Slice" sanno) args tanno) s =
                  .ok s from rfl] at h
                injection h with h
                subst h
                exact ⟨hok, Nat.le_refl _, List.prefix_refl _⟩
              · by_cases hl4 : label = "Assign"
                · subst hl4
                  rw [show runTerm lk ex (.appl (.term "Assign" sanno) args tanno) s =
                    .ok s from rfl] at h
                  injection h with h
                  subst h
                  exact ⟨hok, Nat.le_refl _, List.prefix_refl _⟩
                · by_cases hl5 : label = "Executor"
                  · subst hl5
                    cases tanno with
                    | none =>
                        rw [show runTerm lk ex
                          (.appl (.term "Executor" sanno) args none) s =
                          .error .attributeError from rfl] at h
                        exact Except.noConfusion h
                    | some ann =>
                        cases ann with
                        | mk ty meta =>
                            match meta with
                            | [] =>
                                rw [show runTerm lk ex (.appl (.term "Executor" sanno) args
                                  (some (.mk ty []))) s =
                                  .error (.valueError "unpack annotation metadata") from rfl] at h
                                exact Except.noConfusion h
                            | [e1] =>
                                rw [show runTerm lk ex (.appl (.term "Executor" sanno) args
                                  (some (.mk ty [e1]))) s =
                                  .error (.valueError "unpack annotation metadata") from rfl] at h
                                exact Except.noConfusion h
                            | [e1, e2] =>
                                rw [show runTerm lk ex (.appl (.term "Executor" sanno) args
                                  (some (.mk ty [e1, e2]))) s =
                                  .error (.valueError "unpack annotation metadata") from rfl] at h
                                exact Except.noConfusion h
                            | e1 :: e2 :: e3 :: e4 :: r5 =>
                                rw [show runTerm lk ex (.appl (.term "Executor" sanno) args
                                  (some (.mk ty (e1 :: e2 :: e3 :: e4 :: r5)))) s =
                                  .error (.valueError "unpack annotation metadata") from rfl] at h
                                exact Except.noConfusion h
                            | [eid, bk, hl] =>
                                exact executor_case lk ex sanno args ty eid bk hl s s' h hok
                  · rw [runTerm_unknown_label lk ex label sanno args tanno s
                      hl1 hl2 hl3 hl4 hl5] at h
                    exact Except.noConfusion h
termination_by t => sizeOf t

/-- The `_Executor` case of the invariant preservation, split out for
readability: metadata already unpacked to exactly three entries. -/
theorem executor_case (lk : ATerm → String × Nat) (ex : String → Option String)
    (sanno : Option AAnn) (args : List ATerm) (ty eid bk hl : ATerm) :
    ∀ s s', runTerm lk ex (.appl (.term "Executor" sanno) args
        (some (.mk ty [eid, bk, hl]))) s = .ok s' → stateOK s →
      stateOK s' ∧ s.n ≤ s'.n ∧ s.instructions <+: s'.instructions := by
  intro s s' h hok
  cases hl with
  | aint n a =>
      rw [show runTerm lk ex (.appl (.term "Executor" sanno) args
        (some (.mk ty [eid, bk, .aint n a]))) s = .error .attributeError from rfl] at h
      exact Except.noConfusion h
  | afloat f a =>
      rw [show runTerm lk ex (.appl (.term "Executor" sanno) args
        (some (.mk ty [eid, bk, .afloat f a]))) s = .error .attributeError from rfl] at h
      exact Except.noConfusion h
  | astring l a =>
      rw [show runTerm lk ex (.appl (.term "Executor" sanno) args
        (some (.mk ty [eid, bk, .astring l a]))) s = .error .attributeError from rfl] at h
      exact Except.noConfusion h
  | appl sp2 args2 anno2 =>
      rw [show runTerm lk ex (.appl (.term "Executor" sanno) args
        (some (.mk ty [eid, bk, .appl sp2 args2 anno2]))) s =
        .error .attributeError from rfl] at h
      exact Except.noConfusion h
  | term hlLabel hanno =>
      cases eid with
      | aint n a =>
          rw [show runTerm lk ex (.appl (.term "Executor" sanno) args
            (some (.mk ty [.aint n a, bk, .term hlLabel hanno]))) s =
            .error .attributeError from rfl] at h
          exact Except.noConfusion h
      | afloat f a =>
          rw [show runTerm lk ex (.appl (.term "Executor" sanno) args
            (some (.mk ty [.afloat f a, bk, .term hlLabel hanno]))) s =
            .error .attributeError from rfl] at h
          exact Except.noConfusion h
      | astring l a =>
          rw [show runTerm lk ex (.appl (.term "Executor" sanno) args
            (some (.mk ty [.astring l a, bk, .term hlLabel hanno]))) s =
            .error .attributeError from rfl] at h
          exact Except.noConfusion h
      | appl sp2 args2 anno2 =>
          rw [show runTerm lk ex (.appl (.term "Executor" sanno) args
            (some (.mk ty [.appl sp2 args2 anno2, bk, .term hlLabel hanno]))) s =
            .error .attributeError from rfl] at h
          exact Except.noConfusion h
      | term eidLabel eanno =>
          change (exLookup ex eidLabel >>= _) = _ at h
          cases hx : exLookup ex eidLabel with
          | error e =>
              rw [hx, bindOp_err] at h
              exact Except.noConfusion h
          | ok executor =>
              rw [hx, bindOp_ok] at h
              cases hrl : runList lk ex args s with
              | error e =>
                  rw [hrl, bindOp_err] at h
                  exact Except.noConfusion h
              | ok s1 =>
                  rw [hrl, bindOp_ok] at h
                  cases hfl : varLookupList s1.vartable args with
                  | error e =>
                      rw [hfl, bindOp_err] at h
                      exact Except.noConfusion h
                  | ok fargs =>
                      rw [hfl, bindOp_ok] at h
                      obtain ⟨hok1, hn1, hp1⟩ := runList_stateOK lk ex args s s1 hrl hok
                      by_cases hhl : hlLabel ≠ ""
                      · rw [if_pos hhl] at h
                        cases hlast : lastOrErr fargs with
                        | error e =>
                            rw [hlast, bindOp_err] at h
                            exact Except.noConfusion h
                        | ok lst =>
                            rw [hlast, bindOp_ok] at h
                            cases hds : get_datashape (.appl (.term "Executor" sanno) args
                                (some (.mk ty [.term eidLabel eanno, bk,
                                  .term hlLabel hanno]))) with
                            | error e =>
                                rw [hds, bindOp_err] at h
                                exact Except.noConfusion h
                            | ok ds =>
                                rw [hds, bindOp_ok] at h
                                injection h with h
                                subst h
                                have hargs : ∀ e ∈ fargs.dropLast,
                                    e ∈ s1.vartable.map Prod.snd ∧ entryBound s1.n e := by
                                  intro e he
                                  have hm := varLookupList_mem hfl e
                                    ((List.dropLast_sublist fargs).subset he)
                                  exact ⟨hm, table_mem_bound hok1 hm⟩
                                exact ⟨stateOK_appendInst
                                    ⟨executor, ds, fargs.dropLast, some lst, none⟩ hok1 hargs,
                                  hn1, hp1.trans (List.prefix_append _ _)⟩
                      · rw [if_neg hhl] at h
                        cases hds : get_datashape (.appl (.term "Executor" sanno) args
                            (some (.mk ty [.term eidLabel eanno, bk,
                              .term hlLabel hanno]))) with
                        | error e =>
                            rw [hds, bindOp_err] at h
                            exact Except.noConfusion h
                        | ok ds =>
                            rw [hds, bindOp_ok] at h
                            injection h with h
                            subst h
                            have hargs : ∀ e ∈ fargs,
                                e ∈ s1.vartable.map Prod.snd ∧ entryBound s1.n e := by
                              intro e he
                              have hm := varLookupList_mem hfl e he
                              exact ⟨hm, table_mem_bound hok1 hm⟩
                            exact ⟨stateOK_appendInst
                                ⟨executor, ds, fargs, none, none⟩ hok1 hargs,
                              hn1, hp1.trans (List.prefix_append _ _)⟩
termination_by sizeOf args + 1

/-- Preservation of the generator-state invariant by a list visit. -/
theorem runList_stateOK (lk : ATerm → String × Nat) (ex : String → Option String) :
    (ts : List ATerm) → ∀ s s', runList lk ex ts s = .ok s' → stateOK s →
      stateOK s' ∧ s.n ≤ s'.n ∧ s.instructions <+: s'.instructions
  | [] => by
      intro s s' h hok
      rw [show runList lk ex [] s = .ok s from rfl] at h
      injection h with h
      subst h
      exact ⟨hok, Nat.le_refl _, List.prefix_refl _⟩
  | t :: ts => by
      intro s s' h hok
      change (runTerm lk ex t s >>= _) = _ at h
      cases hrt : runTerm lk ex t s with
      | error e =>
          rw [hrt, bindOp_err] at h
          exact Except.noConfusion h
      | ok s1 =>
          rw [hrt, bindOp_ok] at h
          obtain ⟨hok1, hn1, hp1⟩ := runTerm_stateOK lk ex t s s1 hrt hok
          obtain ⟨hok2, hn2, hp2⟩ := runList_stateOK lk ex ts s1 s' h hok1
          exact ⟨hok2, Nat.le_trans hn1 hn2, hp1.trans hp2⟩
termination_by ts => sizeOf ts

end

end Blaze

namespace Blaze

/-- C1: in every successful compilation step, instructions are emitted
only with arguments that are values already present in the variable
table and bounded by the variable counter — the invariant `stateOK` is
preserved by every visit (so it holds at the moment each `Arithmetic` or
`Executor` instruction is appended), the counter never decreases, and
the instruction list only grows at the end; hence no emitted instruction
references a variable allocated later than its own emission. -/
theorem instruction_args_already_in_vartable (lk : ATerm → String × Nat)
    (ex : String → Option String) (t : ATerm) (s s' : IGState)
    (hrun : runTerm lk ex t s = .ok s') (hok : stateOK s) :
    stateOK s' ∧ s.n ≤ s'.n ∧ s.instructions <+: s'.instructions :=
  runTerm_stateOK lk ex t s s' hrun hok

/-- Witness for C1: compiling `Mul(arr, 2)` from the fresh initial state
satisfies the invariant at the final state. -/
theorem instruction_args_already_in_vartable_witness :
    (runTerm (fun _ => ("multiply", 2)) (fun _ => none)
      (.appl (.term "Arithmetic" none)
        [.term "Mul" none,
         .appl (.term "Array" none) [] (some (.mk (.term "arr" none) [])),
         .aint 2 none]
        (some (.mk (.appl (.term "dshape" none) [.astring "int32" none] none) [])))
      ⟨0, [], []⟩ =
      .ok ⟨2,
        [(.appl (.term "Arithmetic" none)
            [.term "Mul" none,
             .appl (.term "Array" none) [] (some (.mk (.term "arr" none) [])),
             .aint 2 none]
            (some (.mk (.appl (.term "dshape" none) [.astring "int32" none] none) [])),
          .name 1),
         (.aint 2 none, .const (.cint 2)),
         (.appl (.term "Array" none) [] (some (.mk (.term "arr" none) [])), .name 0)],
        [⟨"multiply", [.inr "int32"], [.name 0, .const (.cint 2)], some (.name 1), none⟩]⟩) ∧
    stateOK ⟨0, [], []⟩ ∧
    (stateOK ⟨2,
        [(.appl (.term "Arithmetic" none)
            [.term "Mul" none,
             .appl (.term "Array" none) [] (some (.mk (.term "arr" none) [])),
             .aint 2 none]
            (some (.mk (.appl (.term "dshape" none) [.astring "int32" none] none) [])),
          .name 1),
         (.aint 2 none, .const (.cint 2)),
         (.appl (.term "Array" none) [] (some (.mk (.term "arr" none) [])), .name 0)],
        [⟨"multiply", [.inr "int32"], [.name 0, .const (.cint 2)], some (.name 1), none⟩]⟩ ∧
      (⟨0, [], []⟩ : IGState).n ≤ 2 ∧
      (⟨0, [], []⟩ : IGState).instructions <+:
        [⟨"multiply", [.inr "int32"], [.name 0, .const (.cint 2)], some (.name 1), none⟩]) :=
  ⟨rfl, ⟨by simp [stateOK], by simp [stateOK]⟩,
   instruction_args_already_in_vartable (fun _ => ("multiply", 2)) (fun _ => none)
     (.appl (.term "Arithmetic" none)
       [.term "Mul" none,
        .appl (.term "Array" none) [] (some (.mk (.term "arr" none) [])),
        .aint 2 none]
       (some (.mk (.appl (.term "dshape" none) [.astring "int32" none] none) [])))
     ⟨0, [], []⟩
     ⟨2,
       [(.appl (.term "Arithmetic" none)
           [.term "Mul" none,
            .appl (.term "Array" none) [] (some (.mk (.term "arr" none) [])),
            .aint 2 none]
           (some (.mk (.appl (.term "dshape" none) [.astring "int32" none] none) [])),
         .name 1),
        (.aint 2 none, .const (.cint 2)),
        (.appl (.term "Array" none) [] (some (.mk (.term "arr" none) [])), .name 0)],
       [⟨"multiply", [.inr "int32"], [.name 0, .const (.cint 2)], some (.name 1), none⟩]⟩
     rfl ⟨by simp [stateOK], by simp [stateOK]⟩⟩

end Blaze
